import Mathlib

/-!
Verification of the topology planner of `src/app.py` (Bendac LED Data
Cabling Planner).  The definitions below are a shallow embedding of the
functions `generate_topology`, `num_ports` and the `port_counts`
aggregation; the theorems settle the specification claims about them.
-/

/-- One record of `topology_data` as appended by `generate_topology` in
`src/app.py`: panel grid coordinates, the assigned data port, and the
human-readable panel id `f"{x+1}-{y+1}"`. -/
structure Panel where
  x : Nat
  y : Nat
  port : Nat
  panel_id : String
deriving DecidableEq, Repr

/-- Row visiting order of column `x` in `generate_topology`:
even columns go up (`range(panels_h)`), odd columns go down
(`range(panels_h - 1, -1, -1)`). -/
def colOrder (panels_h x : Nat) : List Nat :=
  if x % 2 = 0 then List.range panels_h else (List.range panels_h).reverse

/-- The serpentine visitation order of `(x, y)` coordinates produced by the
nested loops of `generate_topology`: columns left to right, rows by
`colOrder`. -/
def serpentine (panels_w panels_h : Nat) : List (Nat × Nat) :=
  (List.range panels_w).flatMap (fun x => (colOrder panels_h x).map (fun y => (x, y)))

/-- The port-assignment loop body of `generate_topology`, walking the
coordinate sequence and carrying the loop state `(current_port,
current_port_pixels)`.  When the next panel would exceed `max_pixels` the
port is advanced and the accumulator reset to 0 before the panel is
assigned; afterwards `panel_pixels` is added to the accumulator. -/
def assignPorts (panel_pixels max_pixels : Nat) :
    List (Nat × Nat) → Nat → Nat → List Panel
  | [], _, _ => []
  | (x, y) :: rest, current_port, current_port_pixels =>
    if current_port_pixels + panel_pixels > max_pixels then
      { x := x, y := y, port := current_port + 1, panel_id := s!"{x+1}-{y+1}" } ::
        assignPorts panel_pixels max_pixels rest (current_port + 1) panel_pixels
    else
      { x := x, y := y, port := current_port, panel_id := s!"{x+1}-{y+1}" } ::
        assignPorts panel_pixels max_pixels rest current_port (current_port_pixels + panel_pixels)

/-- `generate_topology(panels_w, panels_h, panel_res_w, panel_res_h,
max_pixels)` of `src/app.py`: `panel_pixels = panel_res_w * panel_res_h`,
then the serpentine walk with the capacity check, starting from port 1 and
accumulated load 0. -/
def generate_topology (panels_w panels_h panel_res_w panel_res_h max_pixels : Nat) :
    List Panel :=
  assignPorts (panel_res_w * panel_res_h) max_pixels (serpentine panels_w panels_h) 1 0

/-- `num_ports = topology_df['port'].max()`.  On an empty frame the lookup
fails (pandas raises / yields no number); `none` models that failure. -/
def num_ports (topology : List Panel) : Option Nat :=
  (topology.map Panel.port).max?

/-- One row of the `port_counts` table of `src/app.py`. -/
structure PortSummary where
  port : Nat
  panelCount : Nat
  pixelLoad : Nat
  utilization : ℚ
deriving DecidableEq, Repr

/-- Round a rational to the nearest integer, ties to even, as numpy's
`round` (used by the pandas `.round` call in `src/app.py`).  `f` is the
floor of `q` and `r2` is twice the numerator of the fractional part, so
`r2 < den` means the fraction is below one half. -/
def roundHalfEven (q : ℚ) : ℤ :=
  let f : ℤ := q.num.fdiv (q.den : ℤ)
  let r2 : ℤ := 2 * (q.num - f * (q.den : ℤ))
  if r2 < (q.den : ℤ) then f
  else if (q.den : ℤ) < r2 then f + 1
  else if f % 2 = 0 then f else f + 1

/-- pandas `.round(1)`: round to one decimal place. -/
def round1 (q : ℚ) : ℚ := (roundHalfEven (q * 10) : ℚ) / 10

/-- The ports appearing in the topology, in the order pandas `groupby`
lists them.  `groupby('port')` sorts the keys ascending; the port column of
a `generate_topology` result is non-decreasing, so keeping first
occurrences already yields that ascending order. -/
def portsUsed (topology : List Panel) : List Nat :=
  (topology.map Panel.port).dedup

/-- The `port_counts` aggregation of `src/app.py`: group the topology by
port; `Panels Count` is the group size, `Pixel Load` is
`count * (res_w * res_h)`, `Utilization (%)` is
`(load / capacity * 100).round(1)`. -/
def port_counts (panel_pixels max_pixels : Nat) (topology : List Panel) :
    List PortSummary :=
  (portsUsed topology).map (fun p =>
    let count := (topology.filter (fun r => r.port == p)).length
    { port := p
      panelCount := count
      pixelLoad := count * panel_pixels
      utilization := round1 (((count * panel_pixels : Nat) : ℚ) / (max_pixels : ℚ) * 100) })

/-- Two grid cells are physically adjacent: they agree in one coordinate and
differ by exactly one in the other. -/
def adjacent (a b : Nat × Nat) : Prop :=
  (a.1 = b.1 ∧ (a.2 + 1 = b.2 ∨ b.2 + 1 = a.2)) ∨
  (a.2 = b.2 ∧ (a.1 + 1 = b.1 ∨ b.1 + 1 = a.1))

/-! ### Rounding helper lemmas -/

/-- `roundHalfEven` of an integer is that integer. -/
theorem roundHalfEven_intCast (n : ℤ) : roundHalfEven (n : ℚ) = n := by
  simp [roundHalfEven, Rat.num_intCast, Rat.den_intCast]

/-- Evaluate `round1` when ten times the argument is an integer. -/
theorem round1_eq_of_mul_ten (q : ℚ) (n : ℤ) (h : q * 10 = (n : ℚ)) :
    round1 q = (n : ℚ) / 10 := by
  rw [round1, h, roundHalfEven_intCast]

/-! ### Structure lemmas about `assignPorts` -/

/-- `assignPorts` visits exactly the coordinates it is given, in order. -/
theorem assignPorts_map_coords (panel_pixels max_pixels : Nat) :
    ∀ (coords : List (Nat × Nat)) (p load : Nat),
      (assignPorts panel_pixels max_pixels coords p load).map (fun r => (r.x, r.y)) = coords
  | [], _, _ => rfl
  | (x, y) :: rest, p, load => by
    simp only [assignPorts]
    split <;>
      simp [assignPorts_map_coords panel_pixels max_pixels rest]

/-- `assignPorts` produces one record per coordinate. -/
theorem assignPorts_length (panel_pixels max_pixels : Nat)
    (coords : List (Nat × Nat)) (p load : Nat) :
    (assignPorts panel_pixels max_pixels coords p load).length = coords.length := by
  have h := assignPorts_map_coords panel_pixels max_pixels coords p load
  calc (assignPorts panel_pixels max_pixels coords p load).length
      = ((assignPorts panel_pixels max_pixels coords p load).map (fun r => (r.x, r.y))).length :=
        (List.length_map _ _).symm
    _ = coords.length := by rw [h]

/-- When a single panel exceeds the capacity, every step advances the port:
starting from port `p` the `i`-th panel lands on port `p + i + 1`. -/
theorem assignPorts_ports_oversized (panel_pixels max_pixels : Nat)
    (hover : max_pixels < panel_pixels) :
    ∀ (coords : List (Nat × Nat)) (p load : Nat),
      (assignPorts panel_pixels max_pixels coords p load).map Panel.port =
        (List.range coords.length).map (fun i => p + i + 1)
  | [], _, _ => rfl
  | (x, y) :: rest, p, load => by
    have hadv : load + panel_pixels > max_pixels := by omega
    rw [List.length_cons, List.range_succ_eq_map]
    simp only [assignPorts, if_pos hadv, List.map_cons, List.map_map, List.cons.injEq]
    refine ⟨trivial, ?_⟩
    rw [assignPorts_ports_oversized panel_pixels max_pixels hover rest (p + 1) panel_pixels]
    apply List.map_congr_left
    intro i _
    simp only [Function.comp_apply]
    omega

/-- With `0 < panel_pixels ≤ max_pixels` and `k = max_pixels / panel_pixels`,
starting from port `p` with `j` panels already accumulated on it (`j ≤ k`),
the `i`-th remaining panel lands on port `p + (i + j) / k`: each port takes
exactly `k` panels before the capacity check advances it. -/
theorem assignPorts_ports_div (panel_pixels max_pixels : Nat)
    (hpos : 0 < panel_pixels) (hle : panel_pixels ≤ max_pixels) :
    ∀ (coords : List (Nat × Nat)) (p j : Nat), j ≤ max_pixels / panel_pixels →
      (assignPorts panel_pixels max_pixels coords p (j * panel_pixels)).map Panel.port =
        (List.range coords.length).map
          (fun i => p + (i + j) / (max_pixels / panel_pixels))
  | [], _, _, _ => rfl
  | (x, y) :: rest, p, j, hj => by
    have hk : 1 ≤ max_pixels / panel_pixels := (Nat.one_le_div_iff hpos).2 hle
    rw [List.length_cons, List.range_succ_eq_map]
    rcases Nat.lt_or_ge j (max_pixels / panel_pixels) with hlt | hge
    · have hbound : (j + 1) * panel_pixels ≤ max_pixels :=
        le_trans (Nat.mul_le_mul_right _ hlt)
          (Nat.div_mul_le_self max_pixels panel_pixels)
      have hc : ¬ (j * panel_pixels + panel_pixels > max_pixels) := by
        have hs : (j + 1) * panel_pixels = j * panel_pixels + panel_pixels := by ring
        omega
      simp only [assignPorts, if_neg hc, List.map_cons, List.map_map, List.cons.injEq]
      refine ⟨by simp [Nat.div_eq_of_lt hlt], ?_⟩
      have hstep : j * panel_pixels + panel_pixels = (j + 1) * panel_pixels := by ring
      rw [hstep, assignPorts_ports_div panel_pixels max_pixels hpos hle rest p (j + 1) hlt]
      apply List.map_congr_left
      intro i _
      simp only [Function.comp_apply]
      have harg : i + 1 + j = i + (j + 1) := by omega
      rw [Nat.succ_eq_add_one, harg]
    · have hjk : j = max_pixels / panel_pixels := le_antisymm hj hge
      subst hjk
      have hcap : max_pixels < (max_pixels / panel_pixels + 1) * panel_pixels :=
        (Nat.div_lt_iff_lt_mul hpos).1 (Nat.lt_succ_self _)
      have hc : max_pixels / panel_pixels * panel_pixels + panel_pixels > max_pixels := by
        have hs : (max_pixels / panel_pixels + 1) * panel_pixels =
            max_pixels / panel_pixels * panel_pixels + panel_pixels := by ring
        omega
      simp only [assignPorts, if_pos hc, List.map_cons, List.map_map, List.cons.injEq]
      refine ⟨?_, ?_⟩
      · simp [Nat.div_self (show 0 < max_pixels / panel_pixels by omega)]
      · have hIH := assignPorts_ports_div panel_pixels max_pixels hpos hle rest (p + 1) 1 hk
        rw [Nat.one_mul] at hIH
        rw [hIH]
        apply List.map_congr_left
        intro i _
        simp only [Function.comp_apply]
        have hdiv := Nat.add_div_right (i + 1) (show 0 < max_pixels / panel_pixels by omega)
        rw [Nat.succ_eq_add_one]
        omega

/-- With `panel_pixels = 0` the capacity check never fires: every panel stays
on the starting port. -/
theorem assignPorts_ports_zero (max_pixels : Nat) :
    ∀ (coords : List (Nat × Nat)) (p load : Nat), load ≤ max_pixels →
      (assignPorts 0 max_pixels coords p load).map Panel.port =
        (List.range coords.length).map (fun _ => p)
  | [], _, _, _ => rfl
  | (x, y) :: rest, p, load, hload => by
    have hc : ¬ (load + 0 > max_pixels) := by omega
    rw [List.length_cons, List.range_succ_eq_map]
    simp only [assignPorts, if_neg hc, List.map_cons, List.map_map, List.cons.injEq]
    exact ⟨trivial, by rw [assignPorts_ports_zero max_pixels rest p (load + 0) (by omega)]; rfl⟩

/-! ### Structure lemmas about the serpentine order -/

theorem colOrder_length (panels_h x : Nat) : (colOrder panels_h x).length = panels_h := by
  unfold colOrder; split <;> simp

theorem mem_colOrder (panels_h x y : Nat) : y ∈ colOrder panels_h x ↔ y < panels_h := by
  unfold colOrder; split <;> simp

theorem colOrder_nodup (panels_h x : Nat) : (colOrder panels_h x).Nodup := by
  unfold colOrder; split
  · exact List.nodup_range _
  · exact List.nodup_reverse.2 (List.nodup_range _)

/-- Peeling off the last column of the serpentine walk. -/
theorem serpentine_succ (panels_w panels_h : Nat) :
    serpentine (panels_w + 1) panels_h =
      serpentine panels_w panels_h ++
        (colOrder panels_h panels_w).map (fun y => (panels_w, y)) := by
  unfold serpentine
  rw [List.range_succ, List.flatMap_append]
  simp

theorem serpentine_length (panels_w panels_h : Nat) :
    (serpentine panels_w panels_h).length = panels_w * panels_h := by
  induction panels_w with
  | zero => simp [serpentine]
  | succ w ih =>
    rw [serpentine_succ, List.length_append, ih, List.length_map, colOrder_length]
    ring

theorem mem_serpentine (panels_w panels_h c r : Nat) :
    (c, r) ∈ serpentine panels_w panels_h ↔ c < panels_w ∧ r < panels_h := by
  simp only [serpentine, List.mem_flatMap, List.mem_range, List.mem_map, Prod.mk.injEq]
  constructor
  · rintro ⟨x, hx, y, hy, rfl, rfl⟩
    exact ⟨hx, (mem_colOrder panels_h x y).1 hy⟩
  · rintro ⟨hc, hr⟩
    exact ⟨c, hc, r, (mem_colOrder panels_h c r).2 hr, rfl, rfl⟩

theorem serpentine_nodup (panels_w panels_h : Nat) :
    (serpentine panels_w panels_h).Nodup := by
  unfold serpentine
  refine List.nodup_flatMap.2 ⟨?_, ?_⟩
  · intro x _
    exact (colOrder_nodup panels_h x).map (fun y z h => by
      simpa using congrArg Prod.snd h)
  · refine List.Pairwise.imp ?_ (List.pairwise_lt_range panels_w)
    intro a b hab
    intro q hqa hqb
    rcases List.mem_map.1 hqa with ⟨y, _, rfl⟩
    rcases List.mem_map.1 hqb with ⟨z, _, hz⟩
    have : b = a := congrArg Prod.fst hz
    omega

/-- Filtering one column's block of pairs by a column index keeps the whole
block or nothing. -/
theorem filter_col_map (x c : Nat) (l : List Nat) :
    ((l.map (fun y => (c, y))).filter (fun q => q.1 == x)) =
      if c = x then l.map (fun y => (c, y)) else [] := by
  induction l with
  | nil => simp
  | cons y ys ih =>
    by_cases hcx : c = x
    · subst hcx
      simp only [List.map_cons, List.filter_cons] at ih ⊢
      simp [ih]
    · simp only [List.map_cons, List.filter_cons] at ih ⊢
      simp [hcx, ih]

/-- Restricting the serpentine walk to one column gives exactly that
column's row order. -/
theorem serpentine_filter_col (panels_w panels_h x : Nat) (hx : x < panels_w) :
    ((serpentine panels_w panels_h).filter (fun q => q.1 == x)).map Prod.snd =
      colOrder panels_h x := by
  induction panels_w with
  | zero => omega
  | succ w ih =>
    rw [serpentine_succ, List.filter_append]
    rcases Nat.lt_or_ge x w with hlt | hge
    · rw [filter_col_map, if_neg (by omega), List.append_nil, ih hlt]
    · have hxw : x = w := by omega
      subst hxw
      have hnone : (serpentine x panels_h).filter (fun q => q.1 == x) = [] := by
        refine List.filter_eq_nil_iff.2 ?_
        rintro ⟨a, b⟩ hq
        have hlt := ((mem_serpentine x panels_h a b).1 hq).1
        intro heq
        have hax : a = x := by simpa using heq
        omega
      rw [hnone, List.nil_append, filter_col_map, if_pos rfl, List.map_map]
      simp

/-- Column indices along the serpentine walk are non-decreasing: columns are
visited left to right. -/
theorem serpentine_cols_mono (panels_w panels_h : Nat) :
    ((serpentine panels_w panels_h).map Prod.fst).Pairwise (· ≤ ·) := by
  induction panels_w with
  | zero => simp [serpentine]
  | succ w ih =>
    rw [serpentine_succ, List.map_append]
    refine List.pairwise_append.2 ⟨ih, ?_, ?_⟩
    · rw [List.map_map]
      have hconst : (Prod.fst ∘ fun y => (w, y)) = fun _ : Nat => w := rfl
      rw [hconst, List.map_const']
      exact List.pairwise_replicate.2 (Or.inr le_rfl)
    · intro a ha b hb
      rcases List.mem_map.1 ha with ⟨⟨c, r⟩, hc, rfl⟩
      rcases List.mem_map.1 hb with ⟨q, hq, rfl⟩
      rcases List.mem_map.1 hq with ⟨y, _, rfl⟩
      have := ((mem_serpentine w panels_h c r).1 hc).1
      exact Nat.le_of_lt this

/-! ### Counting and maximum lemmas -/

/-- Characterization of natural division by a positive divisor. -/
theorem div_eq_iff_mul_le_and_lt (k m n : Nat) (hk : 0 < k) :
    n / k = m ↔ m * k ≤ n ∧ n < (m + 1) * k := by
  constructor
  · rintro rfl
    exact ⟨Nat.div_mul_le_self n k, (Nat.div_lt_iff_lt_mul hk).1 (Nat.lt_succ_self _)⟩
  · rintro ⟨h1, h2⟩
    have hm := (Nat.le_div_iff_mul_le hk).2 h1
    have hm2 := (Nat.div_lt_iff_lt_mul hk).2 h2
    omega

/-- How many `i < N` satisfy `i / k = m`: the size of the part of the
interval `[m*k, (m+1)*k)` that lies below `N`. -/
theorem length_filter_div_range (k m : Nat) (hk : 0 < k) :
    ∀ N : Nat, ((List.range N).filter (fun i => i / k == m)).length =
      min N ((m + 1) * k) - min N (m * k)
  | 0 => by simp
  | N + 1 => by
    rw [List.range_succ, List.filter_append, List.length_append,
      length_filter_div_range k m hk N]
    have hchar := div_eq_iff_mul_le_and_lt k m N hk
    have hmono : m * k ≤ (m + 1) * k := Nat.mul_le_mul_right k (by omega)
    by_cases hNm : N / k = m
    · have hN := hchar.1 hNm
      have hb : (N / k == m) = true := beq_iff_eq.2 hNm
      rw [List.filter_singleton, hb]
      simp only [cond_true, List.length_cons, List.length_nil]
      omega
    · have hN : ¬(m * k ≤ N ∧ N < (m + 1) * k) := fun hc => hNm (hchar.2 hc)
      have hb : (N / k == m) = false := beq_eq_false_iff_ne.2 hNm
      rw [List.filter_singleton, hb]
      simp only [cond_false, List.length_nil]
      omega

/-- `max?` of a list with one element appended. -/
theorem max?_append_singleton (l : List Nat) (a : Nat) :
    (l ++ [a]).max? = some (max (l.max?.getD a) a) := by
  cases l with
  | nil => simp
  | cons x xs =>
    rw [List.cons_append, List.max?_cons', List.max?_cons', List.foldl_append]
    simp [List.foldl]

/-- `max?` of a monotone image of `range N` is the image of `N - 1`. -/
theorem max?_map_range_mono (f : Nat → Nat) (hf : ∀ i j, i ≤ j → f i ≤ f j) :
    ∀ N : Nat, 0 < N → ((List.range N).map f).max? = some (f (N - 1))
  | 0, h => by omega
  | 1, _ => by
    rw [List.range_succ]
    simp
  | N + 2, _ => by
    rw [List.range_succ, List.map_append]
    simp only [List.map_cons, List.map_nil]
    rw [max?_append_singleton, max?_map_range_mono f hf (N + 1) (by omega)]
    simp only [Option.getD_some]
    rw [Nat.max_eq_right (hf (N + 1 - 1) (N + 1) (by omega))]
    rfl

/-- `max?` returns a member that bounds every member. -/
theorem max?_spec (l : List Nat) (a : Nat) (h : l.max? = some a) :
    a ∈ l ∧ ∀ b ∈ l, b ≤ a :=
  ⟨List.max?_mem (fun _ _ => max_choice _ _) h,
    (List.max?_le_iff (fun _ _ _ => max_le_iff) h).1 (Nat.le_refl a)⟩

/-- A non-empty list has a `max?`. -/
theorem max?_of_ne_nil (l : List Nat) (h : l ≠ []) : ∃ a, l.max? = some a := by
  cases hm : l.max? with
  | none => exact absurd (List.max?_eq_none_iff.1 hm) h
  | some a => exact ⟨a, rfl⟩

/-! ### The port column of `generate_topology` -/

/-- When one panel alone exceeds the capacity, every panel of the walk gets
a fresh port: the `i`-th panel (0-indexed) lands on port `i + 2`. -/
theorem generate_topology_ports_oversized
    (panels_w panels_h panel_res_w panel_res_h max_pixels : Nat)
    (hover : max_pixels < panel_res_w * panel_res_h) :
    (generate_topology panels_w panels_h panel_res_w panel_res_h max_pixels).map Panel.port =
      (List.range (panels_w * panels_h)).map (fun i => i + 2) := by
  unfold generate_topology
  rw [assignPorts_ports_oversized _ _ hover _ 1 0, serpentine_length]
  apply List.map_congr_left
  intro i _
  omega

/-- Within capacity, the `i`-th panel of the walk lands on port
`1 + i / (max_pixels / panel_pixels)`. -/
theorem generate_topology_ports_div
    (panels_w panels_h panel_res_w panel_res_h max_pixels : Nat)
    (hpos : 0 < panel_res_w * panel_res_h)
    (hle : panel_res_w * panel_res_h ≤ max_pixels) :
    (generate_topology panels_w panels_h panel_res_w panel_res_h max_pixels).map Panel.port =
      (List.range (panels_w * panels_h)).map
        (fun i => 1 + i / (max_pixels / (panel_res_w * panel_res_h))) := by
  unfold generate_topology
  have hstart := assignPorts_ports_div (panel_res_w * panel_res_h) max_pixels hpos hle
    (serpentine panels_w panels_h) 1 0 (Nat.zero_le _)
  rw [Nat.zero_mul] at hstart
  rw [hstart, serpentine_length]
  apply List.map_congr_left
  intro i _
  simp

/-- With zero pixels per panel the capacity check never fires: every panel
stays on port 1. -/
theorem generate_topology_ports_of_zero
    (panels_w panels_h panel_res_w panel_res_h max_pixels : Nat)
    (hz : panel_res_w * panel_res_h = 0) :
    (generate_topology panels_w panels_h panel_res_w panel_res_h max_pixels).map Panel.port =
      (List.range (panels_w * panels_h)).map (fun _ => 1) := by
  unfold generate_topology
  rw [hz, assignPorts_ports_zero _ _ 1 0 (by omega), serpentine_length]

/-- Counting records on port `p` equals counting `p` in the port column. -/
theorem count_filter_port (topology : List Panel) (p : Nat) :
    (topology.filter (fun r => r.port == p)).length =
      ((topology.map Panel.port).filter (fun q => q == p)).length := by
  rw [List.filter_map, List.length_map]
  rfl

/-! ### Physical adjacency along the serpentine walk -/

/-- Consecutive rows within one column are adjacent cells. -/
theorem chain_adjacent_colOrder (panels_h x : Nat) :
    List.Chain' (fun y z => adjacent (x, y) (x, z)) (colOrder panels_h x) := by
  unfold colOrder
  split
  · cases panels_h with
    | zero => simp
    | succ n =>
      refine (List.chain'_range_succ _ n).2 ?_
      intro i _
      exact Or.inl ⟨rfl, Or.inl rfl⟩
  · rw [List.chain'_reverse]
    cases panels_h with
    | zero => simp
    | succ n =>
      refine (List.chain'_range_succ _ n).2 ?_
      intro i _
      exact Or.inl ⟨rfl, Or.inr rfl⟩

/-- First row visited in a column: `0` going up, `panels_h - 1` going down. -/
theorem colOrder_head? (panels_h x : Nat) (hh : 0 < panels_h) :
    (colOrder panels_h x).head? = some (if x % 2 = 0 then 0 else panels_h - 1) := by
  obtain ⟨n, rfl⟩ : ∃ n, panels_h = n + 1 := ⟨panels_h - 1, by omega⟩
  by_cases hx : x % 2 = 0
  · simp [colOrder, hx, List.range_succ_eq_map]
  · simp [colOrder, hx, List.range_succ]

/-- Last row visited in a column: `panels_h - 1` going up, `0` going down. -/
theorem colOrder_getLast? (panels_h x : Nat) (hh : 0 < panels_h) :
    (colOrder panels_h x).getLast? = some (if x % 2 = 0 then panels_h - 1 else 0) := by
  obtain ⟨n, rfl⟩ : ∃ n, panels_h = n + 1 := ⟨panels_h - 1, by omega⟩
  by_cases hx : x % 2 = 0
  · simp [colOrder, hx, List.range_succ]
  · simp [colOrder, hx, List.range_succ_eq_map]

/-- A column block of the serpentine walk is non-empty. -/
theorem colOrder_ne_nil (panels_h x : Nat) (hh : 0 < panels_h) :
    colOrder panels_h x ≠ [] := by
  intro h
  have := colOrder_length panels_h x
  rw [h] at this
  simp at this
  omega

/-- The serpentine walk is a chain of physically adjacent cells, and a
non-empty walk ends at the top of an even last column or at the bottom of
an odd last column. -/
theorem serpentine_chain_and_last (panels_h : Nat) (hh : 0 < panels_h) :
    ∀ panels_w : Nat,
      List.Chain' adjacent (serpentine panels_w panels_h) ∧
      (0 < panels_w →
        (serpentine panels_w panels_h).getLast? =
          some (if (panels_w - 1) % 2 = 0 then (panels_w - 1, panels_h - 1)
                else (panels_w - 1, 0)))
  | 0 => ⟨List.chain'_nil, by omega⟩
  | w + 1 => by
    obtain ⟨ihchain, ihlast⟩ := serpentine_chain_and_last panels_h hh w
    have hblockchain : List.Chain' adjacent
        ((colOrder panels_h w).map (fun y => (w, y))) :=
      (List.chain'_map _).2 (chain_adjacent_colOrder panels_h w)
    have hblockhead : ((colOrder panels_h w).map (fun y => (w, y))).head? =
        some (w, if w % 2 = 0 then 0 else panels_h - 1) := by
      rw [List.head?_map, colOrder_head? panels_h w hh]
      by_cases hw : w % 2 = 0 <;> simp [hw]
    have hblocklast : ((colOrder panels_h w).map (fun y => (w, y))).getLast? =
        some (w, if w % 2 = 0 then panels_h - 1 else 0) := by
      rw [List.getLast?_map, colOrder_getLast? panels_h w hh]
      by_cases hw : w % 2 = 0 <;> simp [hw]
    constructor
    · rw [serpentine_succ]
      refine List.chain'_append.2 ⟨ihchain, hblockchain, ?_⟩
      intro a ha b hb
      rcases Nat.eq_zero_or_pos w with hw0 | hwpos
      · subst hw0
        simp [serpentine] at ha
      · rw [ihlast hwpos] at ha
        rw [hblockhead] at hb
        simp only [Option.mem_def, Option.some.injEq] at ha hb
        subst hb
        by_cases hw : w % 2 = 0
        · have hw1 : (w - 1) % 2 = 1 := by omega
          rw [if_neg (by omega)] at ha
          subst ha
          exact Or.inr ⟨by simp [hw], Or.inl (by simp; omega)⟩
        · have hw1 : (w - 1) % 2 = 0 := by omega
          rw [if_pos hw1] at ha
          subst ha
          exact Or.inr ⟨by simp [hw], Or.inl (by simp; omega)⟩
    · intro _
      rw [serpentine_succ, List.getLast?_append, hblocklast]
      by_cases hw : w % 2 = 0 <;> simp [hw]

/-- How many `i < N` have `1 + i / k = p` (the port formula within
capacity): the part of `[(p-1)*k, p*k)` below `N`. -/
theorem count_port_div (k N p : Nat) (hk : 0 < k) (hp : 1 ≤ p) :
    ((List.range N).filter (fun i => 1 + i / k == p)).length =
      min N (p * k) - min N ((p - 1) * k) := by
  have hcong : ∀ i ∈ List.range N, (1 + i / k == p) = (i / k == p - 1) := by
    intro i _
    exact Bool.eq_iff_iff.2 (by simp only [beq_iff_eq]; omega)
  rw [List.filter_congr hcong, length_filter_div_range k (p - 1) hk N]
  have hs : p - 1 + 1 = p := by omega
  rw [hs]

/-- How many `i < N` have `i + 2 = p` (the port formula for oversized
panels): one when `p` is in range, otherwise zero. -/
theorem count_port_oversized (p : Nat) :
    ∀ N : Nat, ((List.range N).filter (fun i => i + 2 == p)).length =
      if 2 ≤ p ∧ p - 2 < N then 1 else 0
  | 0 => by simp
  | N + 1 => by
    rw [List.range_succ, List.filter_append, List.length_append,
      count_port_oversized p N]
    by_cases hNp : N + 2 = p
    · have hb : (N + 2 == p) = true := beq_iff_eq.2 hNp
      rw [List.filter_singleton, hb]
      simp only [cond_true, List.length_cons, List.length_nil]
      rw [if_neg (by omega), if_pos (by omega)]
    · have hb : (N + 2 == p) = false := beq_eq_false_iff_ne.2 hNp
      rw [List.filter_singleton, hb]
      simp only [cond_false, List.length_nil]
      by_cases hin : 2 ≤ p ∧ p - 2 < N
      · rw [if_pos hin, if_pos (by omega)]
      · rw [if_neg hin, if_neg (by omega)]

/-- Filtering a mapped list and taking lengths can be computed on the
indices. -/
theorem length_filter_map_eq (g : Nat → Nat) (l : List Nat) (p : Nat) :
    ((l.map g).filter (fun q => q == p)).length =
      (l.filter (fun i => g i == p)).length := by
  rw [List.filter_map, List.length_map]
  rfl

/-- First element of a mapped range. -/
theorem head?_map_range (g : Nat → Nat) (N : Nat) (hN : 0 < N) :
    ((List.range N).map g).head? = some (g 0) := by
  obtain ⟨n, rfl⟩ : ∃ n, N = n + 1 := ⟨N - 1, by omega⟩
  rw [List.range_succ_eq_map]
  simp

/-- The number of records of `generate_topology`. -/
theorem generate_topology_length
    (panels_w panels_h panel_res_w panel_res_h max_pixels : Nat) :
    (generate_topology panels_w panels_h panel_res_w panel_res_h max_pixels).length =
      panels_w * panels_h := by
  unfold generate_topology
  rw [assignPorts_length, serpentine_length]

/-- In the oversized case each used port holds exactly one panel. -/
theorem count_oversized_port
    (panels_w panels_h panel_res_w panel_res_h max_pixels p : Nat)
    (hover : max_pixels < panel_res_w * panel_res_h)
    (hp : p ∈ (generate_topology panels_w panels_h panel_res_w panel_res_h max_pixels).map
      Panel.port) :
    ((generate_topology panels_w panels_h panel_res_w panel_res_h max_pixels).filter
      (fun r => r.port == p)).length = 1 := by
  rw [generate_topology_ports_oversized _ _ _ _ _ hover] at hp
  rw [count_filter_port, generate_topology_ports_oversized _ _ _ _ _ hover,
    length_filter_map_eq, count_port_oversized]
  rcases List.mem_map.1 hp with ⟨i, hi, rfl⟩
  rw [List.mem_range] at hi
  rw [if_pos (by omega)]

/-- Within capacity, the number of panels on port `p ≥ 1` of the topology:
the part of the interval `[(p-1)*k, p*k)` below the panel count. -/
theorem count_div_port
    (panels_w panels_h panel_res_w panel_res_h max_pixels p : Nat)
    (hpos : 0 < panel_res_w * panel_res_h)
    (hle : panel_res_w * panel_res_h ≤ max_pixels) (hp : 1 ≤ p) :
    ((generate_topology panels_w panels_h panel_res_w panel_res_h max_pixels).filter
      (fun r => r.port == p)).length =
      min (panels_w * panels_h) (p * (max_pixels / (panel_res_w * panel_res_h))) -
        min (panels_w * panels_h) ((p - 1) * (max_pixels / (panel_res_w * panel_res_h))) := by
  have hk : 0 < max_pixels / (panel_res_w * panel_res_h) := (Nat.one_le_div_iff hpos).2 hle
  rw [count_filter_port, generate_topology_ports_div _ _ _ _ _ hpos hle,
    length_filter_map_eq, count_port_div _ _ _ hk hp]

/-! ### The claims -/

/-- C9: `generate_topology` depends on the panel resolution only through the
product `panel_res_w * panel_res_h`: two calls agreeing on the grid, the
capacity and that product produce identical output. -/
theorem topology_depends_only_on_pixel_product
    (panels_w panels_h a b c d max_pixels : Nat) (h : a * b = c * d) :
    generate_topology panels_w panels_h a b max_pixels =
      generate_topology panels_w panels_h c d max_pixels := by
  unfold generate_topology
  rw [h]

/-- Witness for C9 at resolutions 2x3 and 6x1. -/
theorem topology_depends_only_on_pixel_product_witness :
    2 * 3 = 6 * 1 ∧
    generate_topology 4 2 2 3 10 = generate_topology 4 2 6 1 10 :=
  ⟨rfl, topology_depends_only_on_pixel_product 4 2 2 3 6 1 10 rfl⟩

/-- C6: consecutive entries of the serpentine sequence are physically
adjacent: they agree in one coordinate and differ by exactly one in the
other. -/
theorem serpentine_consecutive_adjacent (panels_w panels_h : Nat)
    (hw : 1 ≤ panels_w) (hh : 1 ≤ panels_h) :
    List.Chain' adjacent (serpentine panels_w panels_h) :=
  (serpentine_chain_and_last panels_h hh panels_w).1

/-- Witness for C6 on the 3x2 grid. -/
theorem serpentine_consecutive_adjacent_witness :
    1 ≤ 3 ∧ 1 ≤ 2 ∧ List.Chain' adjacent (serpentine 3 2) :=
  ⟨by omega, by omega, serpentine_consecutive_adjacent 3 2 (by omega) (by omega)⟩

/-- The serpentine walk starts at the bottom-left cell `(0, 0)`. -/
theorem serpentine_head? (panels_w panels_h : Nat)
    (hw : 0 < panels_w) (hh : 0 < panels_h) :
    (serpentine panels_w panels_h).head? = some (0, 0) := by
  obtain ⟨w, rfl⟩ : ∃ w, panels_w = w + 1 := ⟨panels_w - 1, by omega⟩
  unfold serpentine
  rw [List.range_succ_eq_map, List.flatMap_cons, List.head?_append,
    List.head?_map, colOrder_head? panels_h 0 hh]
  simp

/-- C5: the serpentine generator visits columns left to right starting at
column 0 (column indices along the walk are non-decreasing and the walk
starts at `(0, 0)`), within an even column rows ascend `0, …, h-1`, within
an odd column rows descend `h-1, …, 0`, and the output is a sequence of
exactly `w*h` distinct `(column, row)` pairs covering the grid with no
duplicates and no omissions. -/
theorem serpentine_order_spec (panels_w panels_h : Nat)
    (hw : 1 ≤ panels_w) (hh : 1 ≤ panels_h) :
    (serpentine panels_w panels_h).length = panels_w * panels_h ∧
    (serpentine panels_w panels_h).Nodup ∧
    (∀ c r : Nat, (c, r) ∈ serpentine panels_w panels_h ↔ c < panels_w ∧ r < panels_h) ∧
    ((serpentine panels_w panels_h).map Prod.fst).Pairwise (· ≤ ·) ∧
    (serpentine panels_w panels_h).head? = some (0, 0) ∧
    ∀ x : Nat, x < panels_w →
      ((serpentine panels_w panels_h).filter (fun q => q.1 == x)).map Prod.snd =
        (if x % 2 = 0 then List.range panels_h else (List.range panels_h).reverse) := by
  refine ⟨serpentine_length panels_w panels_h, serpentine_nodup panels_w panels_h,
    mem_serpentine panels_w panels_h, serpentine_cols_mono panels_w panels_h,
    serpentine_head? panels_w panels_h hw hh, ?_⟩
  intro x hx
  rw [serpentine_filter_col panels_w panels_h x hx]
  rfl

/-- Witness for C5 on the 2x2 grid. -/
theorem serpentine_order_spec_witness :
    1 ≤ 2 ∧ 1 ≤ 2 ∧
    ((serpentine 2 2).length = 2 * 2 ∧
     (serpentine 2 2).Nodup ∧
     (∀ c r : Nat, (c, r) ∈ serpentine 2 2 ↔ c < 2 ∧ r < 2) ∧
     ((serpentine 2 2).map Prod.fst).Pairwise (· ≤ ·) ∧
     (serpentine 2 2).head? = some (0, 0) ∧
     ∀ x : Nat, x < 2 →
       ((serpentine 2 2).filter (fun q => q.1 == x)).map Prod.snd =
         (if x % 2 = 0 then List.range 2 else (List.range 2).reverse)) :=
  ⟨by omega, by omega, serpentine_order_spec 2 2 (by omega) (by omega)⟩

/-- A grid of height 0 has an empty serpentine walk. -/
theorem serpentine_zero_height (panels_w : Nat) : serpentine panels_w 0 = [] := by
  induction panels_w with
  | zero => rfl
  | succ w ih =>
    rw [serpentine_succ, ih]
    simp [colOrder]

/-- `port_counts` of a one-record topology. -/
theorem port_counts_singleton (panel_pixels max_pixels : Nat) (r : Panel) :
    port_counts panel_pixels max_pixels [r] =
      [{ port := r.port, panelCount := 1, pixelLoad := panel_pixels,
         utilization := round1 ((panel_pixels : ℚ) / (max_pixels : ℚ) * 100) }] := by
  unfold port_counts portsUsed
  simp [List.filter]

/-- C4 counterexample: with `portCapacity = 0` (the claim's InvalidCapacity
case) the algorithm is not rejected: it runs to completion and produces the
full two-panel assignment; with `width = 0` it returns an empty result
rather than surfacing an error. -/
theorem no_rejection_zero_capacity :
    (generate_topology 2 1 1 1 0).map (fun r => (r.x, r.y, r.port)) =
      [(0, 0, 2), (1, 0, 3)] ∧
    generate_topology 0 3 2 2 10 = [] :=
  ⟨by decide, rfl⟩

/-- C4 (amended): `generate_topology` performs no input validation.  A zero
width or height yields the empty list rather than an error, and a zero
capacity with positive panel pixels yields a complete assignment placing
each panel alone on a fresh port (`i + 2` for the `i`-th panel). -/
theorem no_input_validation :
    (∀ panels_h panel_res_w panel_res_h max_pixels : Nat,
      generate_topology 0 panels_h panel_res_w panel_res_h max_pixels = []) ∧
    (∀ panels_w panel_res_w panel_res_h max_pixels : Nat,
      generate_topology panels_w 0 panel_res_w panel_res_h max_pixels = []) ∧
    (∀ panels_w panels_h panel_res_w panel_res_h : Nat,
      0 < panel_res_w * panel_res_h →
      (generate_topology panels_w panels_h panel_res_w panel_res_h 0).map Panel.port =
        (List.range (panels_w * panels_h)).map (fun i => i + 2)) := by
  refine ⟨?_, ?_, ?_⟩
  · intro panels_h a b cap
    rfl
  · intro panels_w a b cap
    unfold generate_topology
    rw [serpentine_zero_height]
    rfl
  · intro w h a b hpos
    exact generate_topology_ports_oversized w h a b 0 hpos

/-- Witness for C4's amended statement at a concrete zero-capacity input. -/
theorem no_input_validation_witness :
    0 < 1 * 1 ∧
    (generate_topology 2 1 1 1 0).map Panel.port =
      (List.range (2 * 1)).map (fun i => i + 2) :=
  ⟨by decide, no_input_validation.2.2 2 1 1 1 (by decide)⟩

/-- C3: evaluation at the failing input.  With a single 600-pixel panel and
capacity 500 the computation completes and produces its full result; the
record carries only coordinates, port and id, the summary only port, count,
load and utilization (120%) — no `SinglePanelOverflow` flag exists anywhere
in the output. -/
theorem overflow_not_flagged_output :
    generate_topology 1 1 30 20 500 =
      [{ x := 0, y := 0, port := 2, panel_id := "1-1" }] ∧
    port_counts 600 500 (generate_topology 1 1 30 20 500) =
      [{ port := 2, panelCount := 1, pixelLoad := 600, utilization := 120 }] := by
  have h : generate_topology 1 1 30 20 500 =
      [{ x := 0, y := 0, port := 2, panel_id := "1-1" }] := by decide
  refine ⟨h, ?_⟩
  rw [h, port_counts_singleton]
  rw [round1_eq_of_mul_ten _ 1200 (by norm_num)]
  norm_num

/-- C1 counterexample: for the 1x1 grid with 500 panel pixels and capacity
400, the single panel is NOT assigned to port 1 — the overflow check fires
on the fresh initial port (load 0 + 500 > 400) and advances to port 2. -/
theorem overflow_first_panel_not_port_one :
    (generate_topology 1 1 25 20 400).map Panel.port ≠ [1] := by decide

/-- C1 (amended): for the 1x1 grid with panelPixels = 500 and portCapacity
= 400, the single panel goes to port 2 with pixelLoad 500 and utilization
125.0; in general, when a single panel's pixel count alone exceeds the
capacity the overflow check forces every panel (the first included) onto a
freshly advanced port whose load then exceeds the capacity. -/
theorem single_panel_overflow_scenario :
    (generate_topology 1 1 25 20 400).map (fun r => (r.x, r.y, r.port)) = [(0, 0, 2)] ∧
    port_counts 500 400 (generate_topology 1 1 25 20 400) =
      [{ port := 2, panelCount := 1, pixelLoad := 500, utilization := 125 }] ∧
    ∀ panels_w panels_h panel_res_w panel_res_h max_pixels : Nat,
      max_pixels < panel_res_w * panel_res_h →
      ((generate_topology panels_w panels_h panel_res_w panel_res_h max_pixels).map
          Panel.port = (List.range (panels_w * panels_h)).map (fun i => i + 2) ∧
        ∀ s ∈ port_counts (panel_res_w * panel_res_h) max_pixels
            (generate_topology panels_w panels_h panel_res_w panel_res_h max_pixels),
          s.panelCount = 1 ∧ max_pixels < s.pixelLoad) := by
  refine ⟨by decide, ?_, ?_⟩
  · have h : generate_topology 1 1 25 20 400 =
        [{ x := 0, y := 0, port := 2, panel_id := "1-1" }] := by decide
    rw [h, port_counts_singleton]
    rw [round1_eq_of_mul_ten _ 1250 (by norm_num)]
    norm_num
  · intro panels_w panels_h panel_res_w panel_res_h max_pixels hover
    refine ⟨generate_topology_ports_oversized _ _ _ _ _ hover, ?_⟩
    intro s hs
    simp only [port_counts] at hs
    rcases List.mem_map.1 hs with ⟨p, hp, rfl⟩
    have hpm : p ∈ (generate_topology panels_w panels_h panel_res_w panel_res_h
        max_pixels).map Panel.port := List.mem_dedup.1 hp
    have hcount := count_oversized_port panels_w panels_h panel_res_w panel_res_h
      max_pixels p hover hpm
    refine ⟨hcount, ?_⟩
    show max_pixels <
      ((generate_topology panels_w panels_h panel_res_w panel_res_h max_pixels).filter
        (fun r => r.port == p)).length * (panel_res_w * panel_res_h)
    rw [hcount, Nat.one_mul]
    exact hover

/-- Witness for C1's amended general statement at a concrete oversized
input. -/
theorem single_panel_overflow_scenario_witness :
    2 < 1 * 3 ∧
    (generate_topology 1 2 1 3 2).map Panel.port =
      (List.range (1 * 2)).map (fun i => i + 2) :=
  ⟨by decide, (single_panel_overflow_scenario.2.2 1 2 1 3 2 (by decide)).1⟩

/-- C2 counterexample: with panelPixels = 9 exceeding portCapacity = 5 the
first assigned port is 2, not 1 (port 1 is never used at all). -/
theorem oversized_first_port_not_one :
    ((generate_topology 2 1 3 3 5).map Panel.port).head? ≠ some 1 := by decide

/-- C2 (amended): for every grid with width, height ≥ 1 and every positive
panelPixels that does not exceed portCapacity, the port column is
non-decreasing, the first assigned port is 1, and the set of ports used is
exactly {1, …, m} with `num_ports` returning m. -/
theorem ports_monotone_contiguous_from_one
    (panels_w panels_h panel_res_w panel_res_h max_pixels : Nat)
    (hw : 1 ≤ panels_w) (hh : 1 ≤ panels_h)
    (hpos : 0 < panel_res_w * panel_res_h)
    (hle : panel_res_w * panel_res_h ≤ max_pixels) :
    ((generate_topology panels_w panels_h panel_res_w panel_res_h max_pixels).map
        Panel.port).Pairwise (· ≤ ·) ∧
    ((generate_topology panels_w panels_h panel_res_w panel_res_h max_pixels).map
        Panel.port).head? = some 1 ∧
    ∃ m, num_ports (generate_topology panels_w panels_h panel_res_w panel_res_h
        max_pixels) = some m ∧
      ∀ q : Nat,
        q ∈ (generate_topology panels_w panels_h panel_res_w panel_res_h max_pixels).map
          Panel.port ↔ 1 ≤ q ∧ q ≤ m := by
  have hports := generate_topology_ports_div panels_w panels_h panel_res_w panel_res_h
    max_pixels hpos hle
  have hk : 0 < max_pixels / (panel_res_w * panel_res_h) :=
    (Nat.one_le_div_iff hpos).2 hle
  have hN : 0 < panels_w * panels_h := Nat.mul_pos hw hh
  have hmono : ∀ i j : Nat, i ≤ j →
      1 + i / (max_pixels / (panel_res_w * panel_res_h)) ≤
        1 + j / (max_pixels / (panel_res_w * panel_res_h)) := by
    intro i j hij
    have := Nat.div_le_div_right (c := max_pixels / (panel_res_w * panel_res_h)) hij
    omega
  refine ⟨?_, ?_, ?_⟩
  · rw [hports]
    exact List.pairwise_map.2
      ((List.pairwise_lt_range _).imp (fun h => hmono _ _ (Nat.le_of_lt h)))
  · rw [hports, head?_map_range _ _ hN]
    simp
  · refine ⟨1 + (panels_w * panels_h - 1) / (max_pixels / (panel_res_w * panel_res_h)),
      ?_, ?_⟩
    · unfold num_ports
      rw [hports]
      exact max?_map_range_mono _ hmono _ hN
    · intro q
      rw [hports]
      constructor
      · intro hq
        rcases List.mem_map.1 hq with ⟨i, hi, rfl⟩
        rw [List.mem_range] at hi
        have := hmono i (panels_w * panels_h - 1) (by omega)
        exact ⟨Nat.le_add_right 1 _, this⟩
      · rintro ⟨hq1, hq2⟩
        refine List.mem_map.2
          ⟨(q - 1) * (max_pixels / (panel_res_w * panel_res_h)), ?_, ?_⟩
        · rw [List.mem_range]
          have hle2 : q - 1 ≤
              (panels_w * panels_h - 1) / (max_pixels / (panel_res_w * panel_res_h)) := by
            omega
          have := (Nat.le_div_iff_mul_le hk).1 hle2
          omega
        · rw [Nat.mul_div_cancel _ hk]
          omega

/-- Witness for C2's amended statement at the 2x2 grid with 100-pixel
panels and capacity 250 (ports `[1, 1, 2, 2]`). -/
theorem ports_monotone_contiguous_from_one_witness :
    (1 ≤ 2 ∧ 1 ≤ 2 ∧ 0 < 10 * 10 ∧ 10 * 10 ≤ 250) ∧
    (((generate_topology 2 2 10 10 250).map Panel.port).Pairwise (· ≤ ·) ∧
     ((generate_topology 2 2 10 10 250).map Panel.port).head? = some 1 ∧
     ∃ m, num_ports (generate_topology 2 2 10 10 250) = some m ∧
       ∀ q : Nat, q ∈ (generate_topology 2 2 10 10 250).map Panel.port ↔
         1 ≤ q ∧ q ≤ m) :=
  ⟨by decide, ports_monotone_contiguous_from_one 2 2 10 10 250
    (by decide) (by decide) (by decide) (by decide)⟩

/-- C7: for every input and every port in use, the total pixel load on that
port (its panel count times the per-panel pixels) does not exceed the
capacity, unless the port holds exactly one panel whose own pixel count
exceeds the capacity. -/
theorem port_load_bounded_or_single_oversized
    (panels_w panels_h panel_res_w panel_res_h max_pixels p : Nat)
    (hp : p ∈ portsUsed
      (generate_topology panels_w panels_h panel_res_w panel_res_h max_pixels)) :
    ((generate_topology panels_w panels_h panel_res_w panel_res_h max_pixels).filter
        (fun r => r.port == p)).length * (panel_res_w * panel_res_h) ≤ max_pixels ∨
      (((generate_topology panels_w panels_h panel_res_w panel_res_h max_pixels).filter
          (fun r => r.port == p)).length = 1 ∧
        max_pixels < panel_res_w * panel_res_h) := by
  have hpm : p ∈ (generate_topology panels_w panels_h panel_res_w panel_res_h
      max_pixels).map Panel.port := List.mem_dedup.1 hp
  rcases Nat.lt_or_ge max_pixels (panel_res_w * panel_res_h) with hover | hle
  · exact Or.inr ⟨count_oversized_port panels_w panels_h panel_res_w panel_res_h
      max_pixels p hover hpm, hover⟩
  · rcases Nat.eq_zero_or_pos (panel_res_w * panel_res_h) with hz | hpos
    · left
      rw [hz, Nat.mul_zero]
      exact Nat.zero_le _
    · left
      have hp1 : 1 ≤ p := by
        rw [generate_topology_ports_div _ _ _ _ _ hpos hle] at hpm
        rcases List.mem_map.1 hpm with ⟨i, _, rfl⟩
        exact Nat.le_add_right 1 _
      rw [count_div_port _ _ _ _ _ p hpos hle hp1]
      have hkpos : 0 < max_pixels / (panel_res_w * panel_res_h) :=
        (Nat.one_le_div_iff hpos).2 hle
      have h3 := Nat.sub_mul p 1 (max_pixels / (panel_res_w * panel_res_h))
      have h4 : 1 * (max_pixels / (panel_res_w * panel_res_h)) ≤
          p * (max_pixels / (panel_res_w * panel_res_h)) :=
        Nat.mul_le_mul_right _ hp1
      have hpk : p * (max_pixels / (panel_res_w * panel_res_h)) =
          (p - 1) * (max_pixels / (panel_res_w * panel_res_h)) +
            max_pixels / (panel_res_w * panel_res_h) := by omega
      have hcount_le :
          min (panels_w * panels_h) (p * (max_pixels / (panel_res_w * panel_res_h))) -
            min (panels_w * panels_h)
              ((p - 1) * (max_pixels / (panel_res_w * panel_res_h))) ≤
          max_pixels / (panel_res_w * panel_res_h) := by omega
      exact le_trans (Nat.mul_le_mul_right _ hcount_le)
        (Nat.div_mul_le_self max_pixels (panel_res_w * panel_res_h))

/-- Witness for C7 on a 1x1 grid whose single panel exactly fills port 1. -/
theorem port_load_bounded_or_single_oversized_witness :
    1 ∈ portsUsed (generate_topology 1 1 1 1 1) ∧
    (((generate_topology 1 1 1 1 1).filter (fun r => r.port == 1)).length * (1 * 1) ≤ 1 ∨
      (((generate_topology 1 1 1 1 1).filter (fun r => r.port == 1)).length = 1 ∧
        1 < 1 * 1)) :=
  ⟨by decide, port_load_bounded_or_single_oversized 1 1 1 1 1 1 (by decide)⟩

/-- C8 counterexample: for an empty grid (width 0) the code produces an
empty frame and `num_ports` yields no value at all (the pandas lookup
fails) — in particular it does not equal the 0 the claim requires. -/
theorem empty_grid_num_ports_fails :
    generate_topology 0 2 3 4 100 = [] ∧
    num_ports (generate_topology 0 2 3 4 100) ≠ some 0 :=
  ⟨rfl, by decide⟩

/-- C8 (amended): every row of `port_counts` satisfies the claimed
formulas — `panelCount` counts the panels on that port, `pixelLoad =
panelCount * panelPixels`, and `utilizationPercent` is `pixelLoad /
portCapacity * 100` rounded to one decimal — and for a non-empty grid
`num_ports` returns exactly the maximum port number used. -/
theorem port_summary_formulas
    (panels_w panels_h panel_res_w panel_res_h max_pixels : Nat)
    (hw : 1 ≤ panels_w) (hh : 1 ≤ panels_h) :
    (∀ s ∈ port_counts (panel_res_w * panel_res_h) max_pixels
        (generate_topology panels_w panels_h panel_res_w panel_res_h max_pixels),
      s.panelCount = ((generate_topology panels_w panels_h panel_res_w panel_res_h
          max_pixels).filter (fun r => r.port == s.port)).length ∧
      s.pixelLoad = s.panelCount * (panel_res_w * panel_res_h) ∧
      s.utilization = round1 ((s.pixelLoad : ℚ) / (max_pixels : ℚ) * 100)) ∧
    ∃ m, num_ports (generate_topology panels_w panels_h panel_res_w panel_res_h
        max_pixels) = some m ∧
      m ∈ (generate_topology panels_w panels_h panel_res_w panel_res_h max_pixels).map
        Panel.port ∧
      ∀ q ∈ (generate_topology panels_w panels_h panel_res_w panel_res_h max_pixels).map
        Panel.port, q ≤ m := by
  constructor
  · intro s hs
    simp only [port_counts] at hs
    rcases List.mem_map.1 hs with ⟨p, hp, rfl⟩
    exact ⟨rfl, rfl, rfl⟩
  · have hne : (generate_topology panels_w panels_h panel_res_w panel_res_h
        max_pixels).map Panel.port ≠ [] := by
      intro hnil
      have ht := List.map_eq_nil_iff.1 hnil
      have hlen := generate_topology_length panels_w panels_h panel_res_w panel_res_h
        max_pixels
      rw [ht] at hlen
      have hN : 0 < panels_w * panels_h := Nat.mul_pos hw hh
      simp at hlen
      omega
    rcases max?_of_ne_nil _ hne with ⟨m, hm⟩
    rcases max?_spec _ m hm with ⟨hmem, hub⟩
    exact ⟨m, hm, hmem, hub⟩

/-- Witness for C8's amended statement on the 2x2 grid. -/
theorem port_summary_formulas_witness :
    (1 ≤ 2 ∧ 1 ≤ 2) ∧
    ((∀ s ∈ port_counts (10 * 10) 250 (generate_topology 2 2 10 10 250),
      s.panelCount = ((generate_topology 2 2 10 10 250).filter
          (fun r => r.port == s.port)).length ∧
      s.pixelLoad = s.panelCount * (10 * 10) ∧
      s.utilization = round1 ((s.pixelLoad : ℚ) / (250 : ℚ) * 100)) ∧
    ∃ m, num_ports (generate_topology 2 2 10 10 250) = some m ∧
      m ∈ (generate_topology 2 2 10 10 250).map Panel.port ∧
      ∀ q ∈ (generate_topology 2 2 10 10 250).map Panel.port, q ≤ m) :=
  ⟨⟨by omega, by omega⟩, port_summary_formulas 2 2 10 10 250 (by omega) (by omega)⟩

/-- C10: when `0 < panelPixels ≤ portCapacity`, with `k = portCapacity /
panelPixels`, every port below the highest-numbered one holds exactly `k`
panels, and the maximum port number used (`num_ports`) equals
`ceil(w*h / k) = (w*h + k - 1) / k`. -/
theorem full_ports_and_required_count
    (panels_w panels_h panel_res_w panel_res_h max_pixels : Nat)
    (hw : 1 ≤ panels_w) (hh : 1 ≤ panels_h)
    (hpos : 0 < panel_res_w * panel_res_h)
    (hle : panel_res_w * panel_res_h ≤ max_pixels) :
    num_ports (generate_topology panels_w panels_h panel_res_w panel_res_h max_pixels) =
      some ((panels_w * panels_h + max_pixels / (panel_res_w * panel_res_h) - 1) /
        (max_pixels / (panel_res_w * panel_res_h))) ∧
    ∀ p : Nat, 1 ≤ p →
      p < (panels_w * panels_h + max_pixels / (panel_res_w * panel_res_h) - 1) /
        (max_pixels / (panel_res_w * panel_res_h)) →
      ((generate_topology panels_w panels_h panel_res_w panel_res_h max_pixels).filter
        (fun r => r.port == p)).length = max_pixels / (panel_res_w * panel_res_h) := by
  have hk : 0 < max_pixels / (panel_res_w * panel_res_h) :=
    (Nat.one_le_div_iff hpos).2 hle
  have hN : 0 < panels_w * panels_h := Nat.mul_pos hw hh
  have hceil : (panels_w * panels_h + max_pixels / (panel_res_w * panel_res_h) - 1) /
      (max_pixels / (panel_res_w * panel_res_h)) =
      1 + (panels_w * panels_h - 1) / (max_pixels / (panel_res_w * panel_res_h)) := by
    have h1 := Nat.add_div_right (panels_w * panels_h - 1) hk
    have h2 : panels_w * panels_h - 1 + max_pixels / (panel_res_w * panel_res_h) =
        panels_w * panels_h + max_pixels / (panel_res_w * panel_res_h) - 1 := by omega
    rw [h2] at h1
    omega
  have hmono : ∀ i j : Nat, i ≤ j →
      1 + i / (max_pixels / (panel_res_w * panel_res_h)) ≤
        1 + j / (max_pixels / (panel_res_w * panel_res_h)) := by
    intro i j hij
    have := Nat.div_le_div_right (c := max_pixels / (panel_res_w * panel_res_h)) hij
    omega
  constructor
  · rw [hceil]
    unfold num_ports
    rw [generate_topology_ports_div _ _ _ _ _ hpos hle]
    exact max?_map_range_mono _ hmono _ hN
  · intro p hp1 hpM
    rw [hceil] at hpM
    rw [count_div_port _ _ _ _ _ p hpos hle hp1]
    have hple : p ≤ (panels_w * panels_h - 1) /
        (max_pixels / (panel_res_w * panel_res_h)) := by omega
    have hpkN := (Nat.le_div_iff_mul_le hk).1 hple
    have h3 := Nat.sub_mul p 1 (max_pixels / (panel_res_w * panel_res_h))
    have h4 : 1 * (max_pixels / (panel_res_w * panel_res_h)) ≤
        p * (max_pixels / (panel_res_w * panel_res_h)) :=
      Nat.mul_le_mul_right _ hp1
    omega

/-- Witness for C10 at the 2x2 grid with 100-pixel panels and capacity 250
(`k = 2`, required ports `2`, port 1 holds exactly 2 panels). -/
theorem full_ports_and_required_count_witness :
    (1 ≤ 2 ∧ 1 ≤ 2 ∧ 0 < 10 * 10 ∧ 10 * 10 ≤ 250) ∧
    (num_ports (generate_topology 2 2 10 10 250) =
      some ((2 * 2 + 250 / (10 * 10) - 1) / (250 / (10 * 10))) ∧
    ∀ p : Nat, 1 ≤ p → p < (2 * 2 + 250 / (10 * 10) - 1) / (250 / (10 * 10)) →
      ((generate_topology 2 2 10 10 250).filter (fun r => r.port == p)).length =
        250 / (10 * 10)) :=
  ⟨by decide, full_ports_and_required_count 2 2 10 10 250
    (by decide) (by decide) (by decide) (by decide)⟩
